import Mathlib

set_option maxRecDepth 16384

/-!
Shallow embedding of the duplicate-detection engine of
`src/duplicate_detection.py` (functions `extract_base_name`,
`extract_series_info`, `find_duplicate_files`, `rank_duplicate_files`
and the report/move portions of `process_duplicates`).

Paths are POSIX strings.  File sizes and image resolutions are read from
the filesystem in the Python code (`os.path.getsize`,
`get_image_resolution`); they are modelled as an explicit environment.
Scores are integers.
-/

namespace DupDetect

/-- Python regex class `[A-Z]`. -/
def isUpperAZ (c : Char) : Bool := 'A' ≤ c && c ≤ 'Z'

/-- Python regex class `\s` restricted to ASCII: space, tab, newline,
carriage return, vertical tab, form feed. -/
def isPySpace (c : Char) : Bool :=
  c = ' ' || c = '\t' || c = '\n' || c = '\r' || c = '\x0b' || c = '\x0c'

/-- `a` starts with `b` (list prefix test, executable). -/
def startsWithL : List Char → List Char → Bool
  | _, [] => true
  | [], _ :: _ => false
  | a :: as, b :: bs => a = b && startsWithL as bs

/-- `needle` occurs as a contiguous substring of `hay`
(Python's `needle in hay`). -/
def containsSub (hay needle : List Char) : Bool :=
  match hay with
  | [] => startsWithL [] needle
  | _ :: t => startsWithL hay needle || containsSub t needle

/-- Index of the last `'.'` in the list, if any (Python `str.rfind('.')`). -/
def lastDotIdx (l : List Char) : Option Nat :=
  (l.reverse.findIdx? (fun c => c = '.')).map (fun j => l.length - 1 - j)

/-- `os.path.splitext` on a bare filename (no directory separators): split
at the last dot, unless every character before that dot is itself a dot
(then there is no extension). -/
def splitextList (l : List Char) : List Char × List Char :=
  match lastDotIdx l with
  | none => (l, [])
  | some i =>
    if (l.take i).all (fun c => c = '.') then (l, [])
    else (l.take i, l.drop i)

/-- Strip, from a REVERSED character list, a maximal sequence of blocks,
each block being one-or-more digits followed by one-or-more dots.  On the
un-reversed string this is exactly the deletion performed by
`re.sub(r'(\.+\d+)+$', '', base)` in `extract_base_name`: the longest
suffix made of `.…<digits>` groups is removed.  The recursion is driven
by a fuel counter so that it stays structural; every iteration consumes
at least two characters, so a fuel equal to the list length (supplied by
the wrapper below) can never run out first. -/
def stripNumSuffixRevAux : Nat → List Char → List Char
  | 0, l => l
  | fuel + 1, l =>
    if (l.takeWhile Char.isDigit).length = 0 then l
    else
      if ((l.drop (l.takeWhile Char.isDigit).length).takeWhile
          (fun c => c = '.')).length = 0 then l
      else
        stripNumSuffixRevAux fuel ((l.drop (l.takeWhile Char.isDigit).length).drop
          ((l.drop (l.takeWhile Char.isDigit).length).takeWhile
            (fun c => c = '.')).length)

def stripNumSuffixRev (l : List Char) : List Char := stripNumSuffixRevAux l.length l

/-- `extract_base_name` from the source: drop the extension, then strip all
trailing `.<digits>` suffix groups. -/
def extract_base_name (filename : String) : String :=
  let base := (splitextList filename.toList).1
  String.mk (stripNumSuffixRev base.reverse).reverse

/-- Count of non-overlapping matches of `\.\d+` in the name
(`len(re.findall(r'\.\d+', file_name))` in `rank_duplicate_files`).
Fuel-driven structural recursion; every step consumes at least one
character, so the wrapper's fuel (the list length) never runs out
first. -/
def countDotDigitsAux : Nat → List Char → Nat
  | 0, _ => 0
  | _ + 1, [] => 0
  | fuel + 1, c :: rest =>
    if c = '.' then
      if (rest.takeWhile Char.isDigit).length = 0 then countDotDigitsAux fuel rest
      else 1 + countDotDigitsAux fuel (rest.drop (rest.takeWhile Char.isDigit).length)
    else countDotDigitsAux fuel rest

def countDotDigits (l : List Char) : Nat := countDotDigitsAux l.length l

/-- Python `str.split('.')`. -/
def splitOnDot : List Char → List (List Char)
  | [] => [[]]
  | c :: r =>
    if c = '.' then [] :: splitOnDot r
    else
      match splitOnDot r with
      | [] => [[c]]
      | h :: t => (c :: h) :: t

/-- `os.path.basename` (POSIX): the part after the last `/`. -/
def basenameL (l : List Char) : List Char :=
  match l.reverse.findIdx? (fun c => c = '/') with
  | none => l
  | some j => l.drop (l.length - j)

def basename (p : String) : String := String.mk (basenameL p.toList)

/-- `os.path.dirname` (POSIX): everything before the last `/`; trailing
slashes are stripped unless the result consists only of slashes. -/
def dirnameL (l : List Char) : List Char :=
  match l.reverse.findIdx? (fun c => c = '/') with
  | none => []
  | some j =>
    let head := l.take (l.length - j)
    if head.all (fun c => c = '/') then head
    else (head.reverse.dropWhile (fun c => c = '/')).reverse

/-- `folder_path.replace('\\', '/')` applied to the dirname of a path. -/
def normalizedDir (p : String) : List Char :=
  (dirnameL p.toList).map (fun c => if c = '\\' then '/' else c)

/-- The path's containing folder carries the given category marker
(Python `'/CT/' in normalized_path` etc.). -/
def hasMarker (p : String) (marker : String) : Bool :=
  containsSub (normalizedDir p) marker.toList

/-! ## Series-pattern key (`extract_series_info`) -/

/-- Consume one or more characters satisfying `p` from the front; return
the count consumed and the remainder.  `none` when no character matches
(a `+`-quantified class of the regexes below). -/
def takeWhile1Len (p : Char → Bool) (s : List Char) : Option (Nat × List Char) :=
  if (s.takeWhile p).length = 0 then none
  else some ((s.takeWhile p).length, s.drop (s.takeWhile p).length)

/-- Consume one expected character. -/
def expectC (c : Char) : List Char → Option (List Char)
  | [] => none
  | x :: r => if x = c then some r else none

/-- Consume an expected literal character sequence. -/
def expectL (lit : List Char) (s : List Char) : Option (List Char) :=
  if startsWithL s lit then some (s.drop lit.length) else none

/-- Length of the prefix matched by `re.match(r'^([A-Z]+\.\d+\.Image\s+\d+)', f)`.
Each `+` class here is followed by a character it cannot itself match, so
the greedy left-to-right reading is exact. -/
def matchImageTok (s : List Char) : Option Nat := do
  let (n1, r1) ← takeWhile1Len isUpperAZ s
  let r2 ← expectC '.' r1
  let (n2, r3) ← takeWhile1Len Char.isDigit r2
  let r4 ← expectC '.' r3
  let r5 ← expectL ['I', 'm', 'a', 'g', 'e'] r4
  let (n3, r6) ← takeWhile1Len isPySpace r5
  let (n4, _) ← takeWhile1Len Char.isDigit r6
  pure (n1 + 1 + n2 + 1 + 5 + n3 + n4)

/-- Length of the prefix matched by `re.match(r'^([A-Z]+\.\d+\.[^\.]+)', f)`. -/
def matchGeneralTok (s : List Char) : Option Nat := do
  let (n1, r1) ← takeWhile1Len isUpperAZ s
  let r2 ← expectC '.' r1
  let (n2, r3) ← takeWhile1Len Char.isDigit r2
  let r4 ← expectC '.' r3
  let (n3, _) ← takeWhile1Len (fun c => c ≠ '.') r4
  pure (n1 + 1 + n2 + 1 + n3)

/-- The pattern `\.\d+\.` matches at the head of the list. -/
def dotRunAt : List Char → Bool
  | '.' :: r =>
    if (r.takeWhile Char.isDigit).length = 0 then false
    else
      match r.drop (r.takeWhile Char.isDigit).length with
      | '.' :: _ => true
      | _ => false
  | _ => false

/-- Index of the first position where `\.\d+\.` matches; `re.split` on that
pattern yields more than one part exactly when this is `some`, and the
first part is the text before this index. -/
def splitIdx : List Char → Option Nat
  | [] => none
  | c :: r =>
    if dotRunAt (c :: r) then some 0
    else (splitIdx r).map (fun i => i + 1)

/-- `extract_series_info` from the source: the two anchored regex attempts,
then the `re.split(r'\.\d+\.', ...)` fallback, then the extension-less
name. -/
def extract_series_info (filename : String) : String :=
  match matchImageTok filename.toList with
  | some n => String.mk (filename.toList.take n)
  | none =>
    match matchGeneralTok filename.toList with
    | some n => String.mk (filename.toList.take n)
    | none =>
      match splitIdx filename.toList with
      | some i => String.mk (filename.toList.take i)
      | none => String.mk (splitextList filename.toList).1

/-! ## Grouping (`find_duplicate_files`) -/

/-- Association-list lookup (first binding wins), modelling a Python dict
whose keys are in first-insertion order. -/
def lookupG (gs : List (String × List String)) (k : String) : Option (List String) :=
  match gs with
  | [] => none
  | (k1, v) :: rest => if k1 = k then some v else lookupG rest k

/-- `duplicates[key].append(path)` on a `defaultdict(list)`: append to the
existing binding, or create a new binding at the end. -/
def addToGroup (gs : List (String × List String)) (k : String) (v : String) :
    List (String × List String) :=
  match gs with
  | [] => [(k, [v])]
  | (k1, vs) :: rest =>
    if k1 = k then (k1, vs ++ [v]) :: rest else (k1, vs) :: addToGroup rest k v

/-- `duplicates[key].extend(paths)` on a `defaultdict(list)`. -/
def addAllToGroup (gs : List (String × List String)) (k : String) (vs : List String) :
    List (String × List String) :=
  match gs with
  | [] => [(k, vs)]
  | (k1, vs1) :: rest =>
    if k1 = k then (k1, vs1 ++ vs) :: rest else (k1, vs1) :: addAllToGroup rest k vs

/-- The path belongs to the group stored under key `k`. -/
def inGroups (gs : List (String × List String)) (k p : String) : Prop :=
  ∃ g, lookupG gs k = some g ∧ p ∈ g

/-- DICOM attributes read by the metadata mode (`hasattr` modelled as
`Option`). -/
structure DicomTags where
  sop : Option String
  series : Option String
  instanceNumber : Option Int

/-- External readers: `pydicom.dcmread` (metadata mode) and
`get_file_hash` (content mode); exceptions are modelled as `Except`. -/
structure Reader where
  readTags : String → Except String DicomTags
  fileHash : String → Except String String

/-- Key choice of the metadata branch: `SOPInstanceUID`, else
`SeriesInstanceUID + "_" + InstanceNumber` when both are present, else the
base name with numeric suffixes stripped. -/
def metadataKey (t : DicomTags) (filename : String) : String :=
  match t.sop with
  | some u => u
  | none =>
    match t.series, t.instanceNumber with
    | some s, some n => s ++ "_" ++ toString n
    | _, _ => extract_base_name filename

/-- One iteration of the `metadata` loop of `find_duplicate_files`: a
readable file is appended to the group of its metadata key; an unreadable
file is appended to the error list and the loop continues. -/
def metaStep (rd : Reader)
    (acc : List (String × List String) × List (String × String)) (p : String) :
    List (String × List String) × List (String × String) :=
  match rd.readTags p with
  | .ok t => (addToGroup acc.1 (metadataKey t (basename p)) p, acc.2)
  | .error m => (acc.1, acc.2 ++ [(p, m)])

/-- The `metadata` branch of `find_duplicate_files`: accumulate groups and
the error list over the file list, skipping (but recording) unreadable
files. -/
def metadataGroups (rd : Reader) (files : List String) :
    List (String × List String) × List (String × String) :=
  files.foldl (metaStep rd) ([], [])

/-- One iteration of the `content` loop of `find_duplicate_files`. -/
def contentStep (rd : Reader)
    (acc : List (String × List String) × List (String × String)) (p : String) :
    List (String × List String) × List (String × String) :=
  match rd.fileHash p with
  | .ok h => (addToGroup acc.1 h p, acc.2)
  | .error m => (acc.1, acc.2 ++ [(p, m)])

/-- The `content` branch of `find_duplicate_files`. -/
def contentGroups (rd : Reader) (files : List String) :
    List (String × List String) × List (String × String) :=
  files.foldl (contentStep rd) ([], [])

/-- Patient token of the `advanced` branch: second `'.'`-separated part of
the basename when the name has more than one part, else `"unknown"`. -/
def patientIdOf (filename : List Char) : String :=
  let parts := splitOnDot filename
  if 1 < parts.length then String.mk ((parts.get? 1).getD []) else "unknown"

/-- First level of the `advanced` branch: partition by patient token. -/
def patientGroupsOf (files : List String) : List (String × List String) :=
  files.foldl (fun g p => addToGroup g (patientIdOf (basenameL p.toList)) p) []

/-- Second level of the `advanced` branch: series-group each patient
partition and re-key as `patientId + "_" + seriesKey`. -/
def advancedGroups (files : List String) : List (String × List String) :=
  (patientGroupsOf files).foldl
    (fun acc e =>
      let sgroups := e.2.foldl
        (fun g p => addToGroup g (extract_series_info (basename p)) p) []
      sgroups.foldl (fun a se => addAllToGroup a (e.1 ++ "_" ++ se.1) se.2) acc)
    []

/-- `find_duplicate_files`: dispatch over the grouping mode, then keep only
groups with more than one member.  An unrecognized mode reaches no branch
and yields the empty grouping (the function raises nothing itself; only
the CLI parser restricts the mode). -/
def find_duplicate_files (rd : Reader) (mode : String) (files : List String) :
    List (String × List String) × List (String × String) :=
  let st :=
    if mode = "filename" then
      (files.foldl (fun g p => addToGroup g (extract_base_name (basename p)) p) [], [])
    else if mode = "pattern" then
      (files.foldl (fun g p => addToGroup g (extract_series_info (basename p)) p) [], [])
    else if mode = "metadata" then metadataGroups rd files
    else if mode = "content" then contentGroups rd files
    else if mode = "advanced" then (advancedGroups files, [])
    else ([], [])
  (st.1.filter (fun kv => 1 < kv.2.length), st.2)

/-! ## Ranking (`rank_duplicate_files`) -/

/-- Environment supplying the filesystem facts the scoring loop reads:
`os.path.getsize` and `get_image_resolution` (the latter returns
`Rows * Columns`, or 0 when unavailable). -/
structure FileSys where
  getsize : String → Nat
  resolution : String → Nat

/-- The per-file record built inside the loop of `rank_duplicate_files`
(the dict appended to `ranked_files`). -/
structure Ranked where
  path : String
  size : Nat
  folder_priority : Nat
  suffix_count : Nat
  is_ct_folder : Bool
  resolution : Nat
  size_score : Int
  score : Int
deriving DecidableEq

/-- One iteration of the scoring loop of `rank_duplicate_files`: folder
priority and size preference from the elif chain over the normalized
dirname, suffix count from `re.findall(r'\.\d+', file_name)`, resolution
only for non-CT files, and the linear score formula
`size_score - suffix_count*1000 - folder_priority*10000 + resolution`. -/
def rankInfoOf (fs : FileSys) (p : String) : Ranked :=
  let file_size := fs.getsize p
  let suffix_count := countDotDigits (basenameL p.toList)
  let folder_priority : Nat :=
    if hasMarker p "/CT/" then 1
    else if hasMarker p "/RI/" then 2
    else if hasMarker p "/RS/" then 3
    else if hasMarker p "/RT/" then 4
    else if hasMarker p "/RD/" then 5
    else if hasMarker p "/RE/" then 6
    else if hasMarker p "/CBCT/" then 7
    else 10
  let is_ct_folder := hasMarker p "/CT/"
  let size_score : Int :=
    if hasMarker p "/CT/" then -(file_size : Int)
    else if hasMarker p "/RI/" then (file_size : Int)
    else if hasMarker p "/RS/" then (file_size : Int)
    else if hasMarker p "/RT/" then (file_size : Int)
    else if hasMarker p "/RD/" then (file_size : Int)
    else if hasMarker p "/RE/" then (file_size : Int)
    else if hasMarker p "/CBCT/" then (file_size : Int)
    else 0
  let resolution_score : Nat := if is_ct_folder then 0 else fs.resolution p
  { path := p
    size := file_size
    folder_priority := folder_priority
    suffix_count := suffix_count
    is_ct_folder := is_ct_folder
    resolution := resolution_score
    size_score := size_score
    score := size_score - (suffix_count : Int) * 1000
      - (folder_priority : Int) * 10000 + (resolution_score : Int) }

/-- Stable descending insertion: `x` is placed before the first element
whose score is not strictly greater.  Elements already in the list that
tie with `x` stay behind it only when they preceded it, which matches the
stability guarantee of Python's `list.sort(key=..., reverse=True)`. -/
def insertRanked (x : Ranked) : List Ranked → List Ranked
  | [] => [x]
  | y :: ys => if x.score < y.score then y :: insertRanked x ys else x :: y :: ys

/-- Stable sort by score, highest first
(`ranked_files.sort(key=lambda x: x['score'], reverse=True)`). -/
def sortByScoreDesc : List Ranked → List Ranked
  | [] => []
  | x :: xs => insertRanked x (sortByScoreDesc xs)

/-- `rank_duplicate_files`: score every member of every group and order
each group best-first. -/
def rank_duplicate_files (fs : FileSys) (groups : List (String × List String)) :
    List (String × List Ranked) :=
  groups.map (fun kv => (kv.1, sortByScoreDesc (kv.2.map (rankInfoOf fs))))

/-! ## Report rows (`process_duplicates`, report section) -/

/-- Python `str.capitalize` (ASCII): first character upper-cased, the rest
lower-cased. -/
def pyCapitalize (s : String) : String :=
  match s.toList with
  | [] => s
  | c :: r => String.mk (c.toUpper :: r.map Char.toLower)

/-- One row of the duplicate report, as assembled in `process_duplicates`
(`Is Best Match` is the keep mark). -/
structure ReportRow where
  groupKey : String
  path : String
  folder_priority : Nat
  suffix_count : Nat
  resolution : Nat
  size_score : Int
  score : Int
  isKeep : Bool
  action : String
deriving DecidableEq

def mkReportRow (act key : String) (i : Nat) (f : Ranked) : ReportRow :=
  { groupKey := key
    path := f.path
    folder_priority := f.folder_priority
    suffix_count := f.suffix_count
    resolution := f.resolution
    size_score := f.size_score
    score := f.score
    isKeep := i = 0
    action := if i = 0 then "Keep" else pyCapitalize act }

/-- `for i, file_info in enumerate(ranked_files): report_rows.append(...)`. -/
def reportRowsAux (act key : String) (i : Nat) : List Ranked → List ReportRow
  | [] => []
  | f :: fs => mkReportRow act key i f :: reportRowsAux act key (i + 1) fs

def reportRowsOfGroup (act key : String) (ranked : List Ranked) : List ReportRow :=
  reportRowsAux act key 0 ranked

/-! ## Move action (`process_duplicates`, `action == 'move'` branch) -/

/-- Filesystem modelled as a partial map from paths to file contents
(directories are implicit; `os.makedirs(..., exist_ok=True)` never
fails). -/
def FSState : Type := String → Option String

/-- `shutil.move(src, dst)` with `dst` a full file path: on a missing
source the call raises (caught by the surrounding `except`, so the file
counts as failed); otherwise the source is removed and the destination
receives the source's content, replacing any file already there — this is
POSIX `os.rename` replacement semantics, and the copy-then-unlink fallback
(`copy2`) equally overwrites an existing destination. -/
def doMove (st : FSState) (src dst : String) : FSState × Bool :=
  match st src with
  | none => (st, false)
  | some c => (fun q => if q = src then none else if q = dst then some c else st q, true)

/-- `os.path.join(a, b)` for a relative `b` and a slash-less-terminated
`a`. -/
def joinPath (a b : String) : String := a ++ "/" ++ b

/-- `os.path.relpath(p, root)` for the only shape the move branch feeds
it: paths lexically under `root`. -/
def relpathUnder (root p : String) : String :=
  if startsWithL p.toList (root ++ "/").toList then
    String.mk (p.toList.drop (root.length + 1))
  else p

/-- Destination of a losing file under the Move action:
`output_dir/duplicates/<path relative to root>`. -/
def destPath (outputDir rootDir p : String) : String :=
  joinPath (joinPath outputDir "duplicates") (relpathUnder rootDir p)

/-- The `action == 'move'` loop of `process_duplicates`: every ranked
group's tail (all but the best file) is moved to the quarantine tree;
successes are counted, failures are caught and skipped. -/
def moveBranch (st : FSState) (rootDir outputDir : String)
    (rankedGroups : List (String × List Ranked)) : FSState × Nat :=
  rankedGroups.foldl
    (fun acc kv =>
      (kv.2.drop 1).foldl
        (fun a r =>
          let res := doMove a.1 r.path (destPath outputDir rootDir r.path)
          (res.1, if res.2 then a.2 + 1 else a.2))
        acc)
    (st, 0)

/-! ## The series key as claim C7 describes it -/

/-- Length of an `Image <n>` or `Field <n>` token starting here. -/
def tokenEndAt (l : List Char) : Option Nat := do
  let r ← (expectL ['I', 'm', 'a', 'g', 'e'] l).orElse
    (fun _ => expectL ['F', 'i', 'e', 'l', 'd'] l)
  let (n3, r6) ← takeWhile1Len isPySpace r
  let (n4, _) ← takeWhile1Len Char.isDigit r6
  pure (5 + n3 + n4)

/-- End position (prefix length) of the first embedded `Image <n>` /
`Field <n>` token, if any. -/
def findEmbeddedTok : List Char → Option Nat
  | [] => none
  | c :: r =>
    match tokenEndAt (c :: r) with
    | some m => some m
    | none => (findEmbeddedTok r).map (fun i => i + 1)

/-- Modelled from the spec: the Series-pattern key as claim C7 describes
it — first the prefix up through an embedded `Image <n>` or `Field <n>`
token, else the text before the first `.<digits>.` run, else the Pattern
algorithm (extension removed, trailing `.<digits>` suffix tokens
stripped).  This is the claim's reading, kept for comparison with the
source's `extract_series_info`. -/
def claimSeriesKeyC7 (filename : String) : String :=
  match findEmbeddedTok filename.toList with
  | some n => String.mk (filename.toList.take n)
  | none =>
    match splitIdx filename.toList with
    | some i => String.mk (filename.toList.take i)
    | none => extract_base_name filename

/-! ## Concrete example inputs used by scenario theorems and witnesses -/

/-- Sizes for the CT-scoring scenario of §8: 120000 / 100000 / 200000
bytes. -/
def fsScen : FileSys :=
  ⟨fun p => if p = "/r/CT/p/a.dcm" then 120000
            else if p = "/r/CT/p/b.1.dcm" then 100000 else 200000,
   fun _ => 0⟩

/-- A filesystem in which every file has the same size, producing score
ties. -/
def fsFlat : FileSys := ⟨fun _ => 100, fun _ => 0⟩

/-- Sizes for the cross-category example: the CT file is large, the CBCT
file small. -/
def fsCross : FileSys :=
  ⟨fun p => if p = "/r/CT/p/a.dcm" then 5000000 else 50000, fun _ => 0⟩

/-- Small sizes for the conditional-dominance witness. -/
def fsSmall : FileSys :=
  ⟨fun p => if p = "/r/CT/p/a.dcm" then 1000 else 2000, fun _ => 0⟩

/-- Sizes for the move counterexample: the keeper is the smaller CT file. -/
def fsMove : FileSys :=
  ⟨fun p => if p = "/r/CT/p/a.dcm" then 100 else 200, fun _ => 0⟩

/-- A 500-byte file for the OTHER-category size-term example. -/
def fsOther : FileSys := ⟨fun _ => 500, fun _ => 0⟩

/-- Initial filesystem contents for the move counterexample: two files
under the root and one file already sitting at the loser's quarantine
destination. -/
def stMove : FSState :=
  fun q => if q = "/r/CT/p/a.dcm" then some "A"
           else if q = "/r/CT/p/b.dcm" then some "B"
           else if q = "/o/duplicates/CT/p/b.dcm" then some "OLD" else none

/-- A reader whose every file read fails. -/
def rdFail : Reader := ⟨fun _ => .error "read error", fun _ => .error "read error"⟩

/-- Reader for the metadata witness: one file with a SOP UID, one whose
SOP UID is missing but whose series UID and instance number are present,
one unreadable. -/
def rdMeta : Reader :=
  ⟨fun p =>
      if p = "/r/CT/p/a.dcm" then .ok ⟨some "uidA", some "ser1", some 3⟩
      else if p = "/r/CT/p/b.dcm" then .ok ⟨none, some "ser1", some 3⟩
      else .error "bad header",
   fun _ => .error "unused"⟩

/-! ## Association-list lemmas -/

theorem lookupG_addToGroup_self (gs : List (String × List String)) (k v : String) :
    lookupG (addToGroup gs k v) k = some (((lookupG gs k).getD []) ++ [v]) := by
  induction gs with
  | nil => simp [addToGroup, lookupG]
  | cons e rest ih =>
    by_cases h : e.1 = k
    · simp [addToGroup, lookupG, h]
    · simp [addToGroup, lookupG, h, ih]

theorem lookupG_addToGroup_ne (gs : List (String × List String)) (k v k2 : String)
    (h : k2 ≠ k) : lookupG (addToGroup gs k v) k2 = lookupG gs k2 := by
  have hk : ¬(k = k2) := fun h2 => h h2.symm
  induction gs with
  | nil => simp [addToGroup, lookupG, hk]
  | cons e rest ih =>
    by_cases h1 : e.1 = k
    · simp [addToGroup, lookupG, h1, hk]
    · by_cases h2 : e.1 = k2 <;> simp [addToGroup, lookupG, h1, h2, h, hk, ih]

theorem inGroups_addToGroup_self (gs : List (String × List String)) (k v : String) :
    inGroups (addToGroup gs k v) k v :=
  ⟨_, lookupG_addToGroup_self gs k v, by simp⟩

theorem inGroups_addToGroup_mono (gs : List (String × List String)) (k p k2 v : String)
    (h : inGroups gs k p) : inGroups (addToGroup gs k2 v) k p := by
  obtain ⟨g, hg, hp⟩ := h
  by_cases hk : k2 = k
  · subst hk
    exact ⟨_, lookupG_addToGroup_self gs k2 v, by simp [hg, hp]⟩
  · exact ⟨g, (lookupG_addToGroup_ne gs k2 v k (fun h2 => hk h2.symm)).trans hg, hp⟩

theorem lookupG_addAllToGroup_self (gs : List (String × List String)) (k : String)
    (vs : List String) :
    lookupG (addAllToGroup gs k vs) k = some (((lookupG gs k).getD []) ++ vs) := by
  induction gs with
  | nil => simp [addAllToGroup, lookupG]
  | cons e rest ih =>
    by_cases h : e.1 = k
    · simp [addAllToGroup, lookupG, h]
    · simp [addAllToGroup, lookupG, h, ih]

theorem lookupG_addAllToGroup_ne (gs : List (String × List String)) (k k2 : String)
    (vs : List String) (h : k2 ≠ k) :
    lookupG (addAllToGroup gs k vs) k2 = lookupG gs k2 := by
  have hk : ¬(k = k2) := fun h2 => h h2.symm
  induction gs with
  | nil => simp [addAllToGroup, lookupG, hk]
  | cons e rest ih =>
    by_cases h1 : e.1 = k
    · simp [addAllToGroup, lookupG, h1, hk]
    · by_cases h2 : e.1 = k2 <;> simp [addAllToGroup, lookupG, h1, h2, h, hk, ih]

theorem inGroups_addAllToGroup_self (gs : List (String × List String)) (k p : String)
    (vs : List String) (h : p ∈ vs) : inGroups (addAllToGroup gs k vs) k p :=
  ⟨_, lookupG_addAllToGroup_self gs k vs, by simp [h]⟩

theorem inGroups_addAllToGroup_mono (gs : List (String × List String)) (k p k2 : String)
    (vs : List String) (h : inGroups gs k p) : inGroups (addAllToGroup gs k2 vs) k p := by
  obtain ⟨g, hg, hp⟩ := h
  by_cases hk : k2 = k
  · subst hk
    exact ⟨_, lookupG_addAllToGroup_self gs k2 vs, by simp [hg, hp]⟩
  · exact ⟨g, (lookupG_addAllToGroup_ne gs k2 k vs (fun h2 => hk h2.symm)).trans hg, hp⟩

theorem lookupG_mem (gs : List (String × List String)) (k : String) (g : List String)
    (h : lookupG gs k = some g) : (k, g) ∈ gs := by
  induction gs with
  | nil => simp [lookupG] at h
  | cons e rest ih =>
    obtain ⟨a, b⟩ := e
    by_cases h1 : a = k
    · subst h1
      simp [lookupG] at h
      subst h
      exact List.mem_cons_self _ _
    · simp [lookupG, h1] at h
      exact List.mem_cons_of_mem _ (ih h)

/-! ## Fold lemmas for the grouping loops -/

theorem foldl_addToGroup_mono (κ : String → String) (files : List String)
    (acc : List (String × List String)) (k p : String) (h : inGroups acc k p) :
    inGroups (files.foldl (fun g q => addToGroup g (κ q) q) acc) k p := by
  induction files generalizing acc with
  | nil => exact h
  | cons q rest ih => exact ih _ (inGroups_addToGroup_mono acc k p (κ q) q h)

theorem foldl_addToGroup_mem (κ : String → String) (files : List String)
    (acc : List (String × List String)) (p : String) (h : p ∈ files) :
    inGroups (files.foldl (fun g q => addToGroup g (κ q) q) acc) (κ p) p := by
  induction files generalizing acc with
  | nil => simp at h
  | cons q rest ih =>
    rcases List.mem_cons.mp h with h1 | h1
    · subst h1
      exact foldl_addToGroup_mono κ rest _ (κ p) p (inGroups_addToGroup_self acc (κ p) p)
    · exact ih _ h1

theorem foldl_addAllToGroup_mono (κ : String → String)
    (sgs : List (String × List String)) (acc : List (String × List String))
    (k p : String) (h : inGroups acc k p) :
    inGroups (sgs.foldl (fun a se => addAllToGroup a (κ se.1) se.2) acc) k p := by
  induction sgs generalizing acc with
  | nil => exact h
  | cons se rest ih => exact ih _ (inGroups_addAllToGroup_mono acc k p (κ se.1) se.2 h)

theorem foldl_addAllToGroup_mem (κ : String → String)
    (sgs : List (String × List String)) (acc : List (String × List String))
    (se : String × List String) (p : String) (hse : se ∈ sgs) (hp : p ∈ se.2) :
    inGroups (sgs.foldl (fun a se2 => addAllToGroup a (κ se2.1) se2.2) acc) (κ se.1) p := by
  induction sgs generalizing acc with
  | nil => simp at hse
  | cons e rest ih =>
    rcases List.mem_cons.mp hse with h1 | h1
    · subst h1
      exact foldl_addAllToGroup_mono κ rest _ (κ se.1) p
        (inGroups_addAllToGroup_self acc (κ se.1) p se.2 hp)
    · exact ih _ h1

theorem metaFold_groups_mono (rd : Reader) (files : List String)
    (acc : List (String × List String) × List (String × String)) (k p : String)
    (h : inGroups acc.1 k p) : inGroups (files.foldl (metaStep rd) acc).1 k p := by
  induction files generalizing acc with
  | nil => exact h
  | cons q rest ih =>
    apply ih
    unfold metaStep
    cases rd.readTags q with
    | ok t => exact inGroups_addToGroup_mono acc.1 k p _ q h
    | error m => exact h

theorem metaFold_errors_mono (rd : Reader) (files : List String)
    (acc : List (String × List String) × List (String × String))
    (e : String × String) (h : e ∈ acc.2) : e ∈ (files.foldl (metaStep rd) acc).2 := by
  induction files generalizing acc with
  | nil => exact h
  | cons q rest ih =>
    apply ih
    unfold metaStep
    cases rd.readTags q with
    | ok t => exact h
    | error m => exact List.mem_append_left _ h

theorem metaFold_ok_mem (rd : Reader) (files : List String)
    (acc : List (String × List String) × List (String × String)) (p : String)
    (t : DicomTags) (hmem : p ∈ files) (hok : rd.readTags p = .ok t) :
    inGroups (files.foldl (metaStep rd) acc).1 (metadataKey t (basename p)) p := by
  induction files generalizing acc with
  | nil => simp at hmem
  | cons q rest ih =>
    rcases List.mem_cons.mp hmem with h1 | h1
    · subst h1
      rw [List.foldl_cons]
      apply metaFold_groups_mono
      unfold metaStep
      rw [hok]
      exact inGroups_addToGroup_self acc.1 _ p
    · exact ih _ h1

theorem metaFold_err_mem (rd : Reader) (files : List String)
    (acc : List (String × List String) × List (String × String)) (p m : String)
    (hmem : p ∈ files) (herr : rd.readTags p = .error m) :
    (p, m) ∈ (files.foldl (metaStep rd) acc).2 := by
  induction files generalizing acc with
  | nil => simp at hmem
  | cons q rest ih =>
    rcases List.mem_cons.mp hmem with h1 | h1
    · subst h1
      rw [List.foldl_cons]
      apply metaFold_errors_mono
      unfold metaStep
      rw [herr]
      simp
    · exact ih _ h1

/-- Every path stored in any group of the metadata fold was readable. -/
def groupsAllOk (rd : Reader) (gs : List (String × List String)) : Prop :=
  ∀ kv ∈ gs, ∀ q ∈ kv.2, ∃ t, rd.readTags q = .ok t

theorem groupsAllOk_addToGroup (rd : Reader) (gs : List (String × List String))
    (k v : String) (hgs : groupsAllOk rd gs) (hv : ∃ t, rd.readTags v = .ok t) :
    groupsAllOk rd (addToGroup gs k v) := by
  induction gs with
  | nil =>
    intro kv hkv q hq
    simp [addToGroup] at hkv
    subst hkv
    simp at hq
    subst hq
    exact hv
  | cons e rest ih =>
    intro kv hkv q hq
    simp only [addToGroup] at hkv
    by_cases h1 : e.1 = k
    · rw [if_pos h1] at hkv
      rcases List.mem_cons.mp hkv with h2 | h2
      · subst h2
        rcases List.mem_append.mp hq with h3 | h3
        · exact hgs e (List.mem_cons_self _ _) q h3
        · simp at h3
          subst h3
          exact hv
      · exact hgs kv (List.mem_cons_of_mem _ h2) q hq
    · rw [if_neg h1] at hkv
      rcases List.mem_cons.mp hkv with h2 | h2
      · subst h2
        exact hgs e (List.mem_cons_self _ _) q hq
      · exact ih (fun kv2 hkv2 => hgs kv2 (List.mem_cons_of_mem _ hkv2)) kv h2 q hq

/-! ## Sorting lemmas -/

theorem length_insertRanked (x : Ranked) (s : List Ranked) :
    (insertRanked x s).length = s.length + 1 := by
  induction s with
  | nil => rfl
  | cons y ys ih => by_cases h : x.score < y.score <;> simp [insertRanked, h, ih]

theorem length_sortByScoreDesc (l : List Ranked) :
    (sortByScoreDesc l).length = l.length := by
  induction l with
  | nil => rfl
  | cons x xs ih => simp [sortByScoreDesc, length_insertRanked, ih]

theorem insertRanked_eq_parts (x : Ranked) (s : List Ranked) :
    insertRanked x s
      = s.takeWhile (fun y => x.score < y.score)
        ++ x :: s.dropWhile (fun y => x.score < y.score) := by
  induction s with
  | nil => rfl
  | cons y ys ih =>
    by_cases h : x.score < y.score
    · simp [insertRanked, h, List.takeWhile_cons, List.dropWhile_cons, ih]
    · simp [insertRanked, h, List.takeWhile_cons, List.dropWhile_cons]

theorem head?_insertRanked (x : Ranked) (s : List Ranked) :
    (insertRanked x s).head? = some x ∨ (insertRanked x s).head? = s.head? := by
  cases s with
  | nil => left; rfl
  | cons y ys =>
    by_cases h : x.score < y.score
    · right; simp [insertRanked, h]
    · left; simp [insertRanked, h]

theorem chain'_insertRanked (x : Ranked) (s : List Ranked)
    (h : List.Chain' (fun a b : Ranked => b.score ≤ a.score) s) :
    List.Chain' (fun a b : Ranked => b.score ≤ a.score) (insertRanked x s) := by
  induction s with
  | nil => simp [insertRanked]
  | cons y ys ih =>
    by_cases hc : x.score < y.score
    · have heq : insertRanked x (y :: ys) = y :: insertRanked x ys := by
        simp [insertRanked, hc]
      rw [heq, List.chain'_cons']
      refine ⟨?_, ih (List.chain'_cons'.mp h).2⟩
      intro b hb
      rcases head?_insertRanked x ys with h2 | h2
      · rw [h2] at hb
        simp at hb
        subst hb
        exact le_of_lt hc
      · rw [h2] at hb
        exact (List.chain'_cons'.mp h).1 b hb
    · have heq : insertRanked x (y :: ys) = x :: y :: ys := by
        simp [insertRanked, hc]
      rw [heq, List.chain'_cons']
      refine ⟨?_, h⟩
      intro b hb
      simp at hb
      subst hb
      exact le_of_not_lt hc

theorem chain'_sortByScoreDesc (l : List Ranked) :
    List.Chain' (fun a b : Ranked => b.score ≤ a.score) (sortByScoreDesc l) := by
  induction l with
  | nil => simp [sortByScoreDesc]
  | cons x xs ih => exact chain'_insertRanked x _ ih

theorem find?_congrOn {α : Type} (l : List α) (p q : α → Bool)
    (h : ∀ a ∈ l, p a = q a) : l.find? p = l.find? q := by
  induction l with
  | nil => rfl
  | cons a as ih =>
    by_cases hp : p a = true
    · rw [List.find?_cons_of_pos _ hp,
        List.find?_cons_of_pos _ ((h a (List.mem_cons_self _ _)) ▸ hp)]
    · rw [List.find?_cons_of_neg _ hp,
        List.find?_cons_of_neg _ ((h a (List.mem_cons_self _ _)) ▸ hp),
        ih (fun b hb => h b (List.mem_cons_of_mem _ hb))]

theorem head?_sortByScoreDesc (l : List Ranked) :
    (sortByScoreDesc l).head?
      = l.find? (fun r => l.all (fun z => z.score ≤ r.score)) := by
  induction l with
  | nil => rfl
  | cons x xs ih =>
    cases hxs : sortByScoreDesc xs with
    | nil =>
      have hlen : xs.length = 0 := by
        have h0 := length_sortByScoreDesc xs
        rw [hxs] at h0
        simpa using h0.symm
      have hnil : xs = [] := List.length_eq_zero.mp hlen
      subst hnil
      simp [sortByScoreDesc, insertRanked, List.find?]
    | cons h0 t0 =>
      have hfind : xs.find? (fun r => xs.all (fun z => z.score ≤ r.score)) = some h0 := by
        rw [← ih, hxs]
        rfl
      have hmem : h0 ∈ xs := List.mem_of_find?_eq_some hfind
      have hall := List.find?_some hfind
      have hallP : ∀ z ∈ xs, z.score ≤ h0.score := by
        intro z hz
        have h2 := List.all_eq_true.mp hall z hz
        simpa using h2
      show (insertRanked x (sortByScoreDesc xs)).head? = _
      rw [hxs]
      by_cases hc : x.score < h0.score
      · have hL : (insertRanked x (h0 :: t0)).head? = some h0 := by
          simp [insertRanked, hc]
        rw [hL]
        have hplx : ((x :: xs).all (fun z => z.score ≤ x.score)) = false := by
          refine List.all_eq_false.mpr ⟨h0, List.mem_cons_of_mem _ hmem, ?_⟩
          simp
          omega
        rw [List.find?_cons_of_neg _ (by simp [hplx])]
        rw [find?_congrOn xs _ (fun r => xs.all (fun z => z.score ≤ r.score)) ?_, hfind]
        intro z hz
        by_cases hq : (xs.all (fun w => w.score ≤ z.score)) = true
        · have hxz : x.score ≤ z.score := by
            have h1 : h0.score ≤ z.score := by
              have := List.all_eq_true.mp hq h0 hmem
              simpa using this
            omega
          simp only [List.all_cons, hq]
          simp [hxz]
        · simp only [List.all_cons]
          rw [Bool.eq_false_iff.mpr hq]
          simp [hq]
      · have hL : (insertRanked x (h0 :: t0)).head? = some x := by
          simp [insertRanked, hc]
        rw [hL]
        have hplx : ((x :: xs).all (fun z => z.score ≤ x.score)) = true := by
          rw [List.all_eq_true]
          intro z hz
          rcases List.mem_cons.mp hz with h1 | h1
          · subst h1
            simp
          · have := hallP z h1
            simp
            omega
        exact (@List.find?_cons_of_pos Ranked
          (fun r => (x :: xs).all (fun z => decide (z.score ≤ r.score))) x xs hplx).symm

theorem filter_insertRanked_parts (x : Ranked) (m : List Ranked) (p : Ranked → Bool) :
    (insertRanked x m).filter p
      = (m.takeWhile (fun y => x.score < y.score)).filter p
        ++ (if p x then [x] else [])
        ++ (m.dropWhile (fun y => x.score < y.score)).filter p := by
  rw [insertRanked_eq_parts, List.filter_append, List.filter_cons]
  by_cases h : p x = true <;> simp [h]

theorem filter_sortByScoreDesc (l : List Ranked) (n : Int) :
    (sortByScoreDesc l).filter (fun r => r.score == n)
      = l.filter (fun r => r.score == n) := by
  induction l with
  | nil => rfl
  | cons x xs ih =>
    show (insertRanked x (sortByScoreDesc xs)).filter _ = _
    rw [filter_insertRanked_parts]
    have hsplit : (sortByScoreDesc xs).filter (fun r => r.score == n)
        = ((sortByScoreDesc xs).takeWhile (fun y => x.score < y.score)).filter
            (fun r => r.score == n)
          ++ ((sortByScoreDesc xs).dropWhile (fun y => x.score < y.score)).filter
            (fun r => r.score == n) := by
      rw [← List.filter_append, List.takeWhile_append_dropWhile]
    by_cases hx : x.score = n
    · have hcond : (x.score == n) = true := by simp [hx]
      have htw : ((sortByScoreDesc xs).takeWhile (fun y => x.score < y.score)).filter
          (fun r => r.score == n) = [] := by
        rw [List.filter_eq_nil_iff]
        intro a ha
        have h1 := List.mem_takeWhile_imp ha
        simp at h1
        simp
        omega
      have hdw : ((sortByScoreDesc xs).dropWhile (fun y => x.score < y.score)).filter
          (fun r => r.score == n) = xs.filter (fun r => r.score == n) := by
        rw [htw] at hsplit
        simp only [List.nil_append] at hsplit
        exact hsplit.symm.trans ih
      rw [htw, hdw, if_pos hcond, List.filter_cons]
      simp [hcond]
    · have hcond : ¬((x.score == n) = true) := by simp [hx]
      rw [if_neg hcond, List.append_nil, ← List.filter_append,
        List.takeWhile_append_dropWhile, ih, List.filter_cons, if_neg hcond]

/-! ## Characterization of the split fallback -/

theorem splitIdx_some_spec (l : List Char) (i : Nat) (h : splitIdx l = some i) :
    dotRunAt (l.drop i) = true ∧ ∀ j, j < i → dotRunAt (l.drop j) = false := by
  induction l generalizing i with
  | nil => simp [splitIdx] at h
  | cons c r ih =>
    by_cases hc : dotRunAt (c :: r) = true
    · simp [splitIdx, hc] at h
      subst h
      exact ⟨hc, fun j hj => absurd hj (Nat.not_lt_zero j)⟩
    · simp only [splitIdx, if_neg hc] at h
      rcases Option.map_eq_some'.mp h with ⟨i0, hi0, hieq⟩
      subst hieq
      obtain ⟨h1, h2⟩ := ih i0 hi0
      refine ⟨h1, ?_⟩
      intro j hj
      cases j with
      | zero => simpa using Bool.eq_false_iff.mpr hc
      | succ j0 => exact h2 j0 (Nat.lt_of_succ_lt_succ hj)

theorem splitIdx_none_spec (l : List Char) (h : splitIdx l = none) :
    ∀ j, dotRunAt (l.drop j) = false := by
  induction l with
  | nil =>
    intro j
    simp [dotRunAt]
  | cons c r ih =>
    intro j
    by_cases hc : dotRunAt (c :: r) = true
    · simp [splitIdx, hc] at h
    · simp only [splitIdx, if_neg hc, Option.map_eq_none'] at h
      cases j with
      | zero => simpa using Bool.eq_false_iff.mpr hc
      | succ j0 => exact ih h j0

/-! ## Report-row lemmas -/

theorem reportRowsAux_not_keep (act key : String) (l : List Ranked) :
    ∀ i, i ≠ 0 → ∀ r ∈ reportRowsAux act key i l, r.isKeep = false := by
  induction l with
  | nil =>
    intro i hi r hr
    simp [reportRowsAux] at hr
  | cons f rest ih =>
    intro i hi r hr
    rcases List.mem_cons.mp hr with h1 | h1
    · subst h1
      simp [mkReportRow, hi]
    · exact ih (i + 1) (Nat.succ_ne_zero i) r h1

theorem reportRowsAux_countP_zero (act key : String) (l : List Ranked) (i : Nat)
    (hi : i ≠ 0) : (reportRowsAux act key i l).countP (fun r => r.isKeep) = 0 := by
  rw [List.countP_eq_zero]
  intro r hr
  simp [reportRowsAux_not_keep act key l i hi r hr]

theorem splitOnDot_no_dot (l : List Char) (h : ∀ c ∈ l, c ≠ '.') :
    splitOnDot l = [l] := by
  induction l with
  | nil => rfl
  | cons c r ih =>
    have hc : ¬(c = '.') := h c (List.mem_cons_self _ _)
    simp only [splitOnDot, if_neg hc]
    rw [ih (fun c2 hc2 => h c2 (List.mem_cons_of_mem _ hc2))]

/-! ## Membership in the two-level advanced grouping -/

theorem advancedFold_mono (pgs : List (String × List String))
    (acc : List (String × List String)) (k p : String) (h : inGroups acc k p) :
    inGroups
      (pgs.foldl
        (fun acc2 e2 =>
          (e2.2.foldl (fun g q => addToGroup g (extract_series_info (basename q)) q)
              []).foldl
            (fun a se => addAllToGroup a (e2.1 ++ "_" ++ se.1) se.2) acc2)
        acc) k p := by
  induction pgs generalizing acc with
  | nil => exact h
  | cons e0 rest ih =>
    rw [List.foldl_cons]
    exact ih _ (foldl_addAllToGroup_mono (fun s => e0.1 ++ "_" ++ s) _ acc k p h)

theorem advancedFold_mem (pgs : List (String × List String))
    (acc : List (String × List String)) (e : String × List String) (p : String)
    (he : e ∈ pgs) (hp : p ∈ e.2) :
    inGroups
      (pgs.foldl
        (fun acc2 e2 =>
          (e2.2.foldl (fun g q => addToGroup g (extract_series_info (basename q)) q)
              []).foldl
            (fun a se => addAllToGroup a (e2.1 ++ "_" ++ se.1) se.2) acc2)
        acc)
      (e.1 ++ "_" ++ extract_series_info (basename p)) p := by
  induction pgs generalizing acc with
  | nil => simp at he
  | cons e0 rest ih =>
    rcases List.mem_cons.mp he with h1 | h1
    · subst h1
      rw [List.foldl_cons]
      apply advancedFold_mono
      obtain ⟨g2, hlk2, hpg2⟩ :=
        foldl_addToGroup_mem (fun q => extract_series_info (basename q)) e.2 [] p hp
      have hse : (extract_series_info (basename p), g2)
          ∈ e.2.foldl (fun g q => addToGroup g (extract_series_info (basename q)) q) [] :=
        lookupG_mem _ _ _ hlk2
      exact foldl_addAllToGroup_mem (fun s => e.1 ++ "_" ++ s) _ acc
        (extract_series_info (basename p), g2) p hse hpg2
    · rw [List.foldl_cons]
      exact ih _ h1

/-! ## Score formula in terms of the stored fields -/

theorem score_eq_fields (fs : FileSys) (p : String) :
    (rankInfoOf fs p).score
      = (rankInfoOf fs p).size_score
        - ((rankInfoOf fs p).suffix_count : Int) * 1000
        - ((rankInfoOf fs p).folder_priority : Int) * 10000
        + ((rankInfoOf fs p).resolution : Int) := rfl

/-! ## Move-step behavior -/

theorem doMove_overwrites (st : FSState) (src dst c : String)
    (h1 : st src = some c) (h2 : src ≠ dst) :
    (doMove st src dst).1 dst = some c
    ∧ (doMove st src dst).1 src = none
    ∧ (doMove st src dst).2 = true := by
  unfold doMove
  rw [h1]
  have h3 : ¬(dst = src) := fun h => h2 h.symm
  refine ⟨?_, ?_, rfl⟩
  · simp [h3]
  · simp

theorem metaFold_groupsAllOk (rd : Reader) (files : List String)
    (acc : List (String × List String) × List (String × String))
    (hacc : groupsAllOk rd acc.1) :
    groupsAllOk rd (files.foldl (metaStep rd) acc).1 := by
  induction files generalizing acc with
  | nil => exact hacc
  | cons q rest ih =>
    apply ih
    unfold metaStep
    cases hq : rd.readTags q with
    | ok t => exact groupsAllOk_addToGroup rd acc.1 _ q hacc ⟨t, hq⟩
    | error m => exact hacc



/-! ## Claim theorems -/

/-- C1: for every group that reaches ranking (at least 2 members, any
grouping mode produces plain path lists), the ranked list is sorted
best-first and exactly one report row carries the keep mark
(`Is Best Match`), namely the row of the head of the ranked list. -/
theorem exactly_one_keep_per_group (fs : FileSys) (act key : String) (g : List String)
    (h : 2 ≤ g.length) :
    ((reportRowsOfGroup act key (sortByScoreDesc (g.map (rankInfoOf fs)))).countP
        (fun r => r.isKeep) = 1)
    ∧ List.Chain' (fun a b : Ranked => b.score ≤ a.score)
        (sortByScoreDesc (g.map (rankInfoOf fs)))
    ∧ ((reportRowsOfGroup act key (sortByScoreDesc (g.map (rankInfoOf fs)))).head?.map
        (fun r => r.isKeep) = some true)
    ∧ ((reportRowsOfGroup act key (sortByScoreDesc (g.map (rankInfoOf fs)))).head?.map
        (fun r => r.path)
      = (sortByScoreDesc (g.map (rankInfoOf fs))).head?.map (fun r => r.path)) := by
  have hne : sortByScoreDesc (g.map (rankInfoOf fs)) ≠ [] := by
    have hlen := length_sortByScoreDesc (g.map (rankInfoOf fs))
    rw [List.length_map] at hlen
    intro hnil
    rw [hnil] at hlen
    simp at hlen
    omega
  obtain ⟨f, rest, heq⟩ := List.exists_cons_of_ne_nil hne
  refine ⟨?_, chain'_sortByScoreDesc _, ?_, ?_⟩
  · rw [heq]
    show (mkReportRow act key 0 f :: reportRowsAux act key 1 rest).countP
      (fun r => r.isKeep) = 1
    rw [List.countP_cons, reportRowsAux_countP_zero act key rest 1 (by omega)]
    simp [mkReportRow]
  · rw [heq]
    rfl
  · rw [heq]
    rfl

theorem exactly_one_keep_per_group_witness :
    (reportRowsOfGroup "move" "k"
        (sortByScoreDesc (["/r/CT/q/a.dcm", "/r/CT/q/b.dcm"].map (rankInfoOf fsFlat)))).countP
      (fun r => r.isKeep) = 1 :=
  (exactly_one_keep_per_group fsFlat "move" "k" ["/r/CT/q/a.dcm", "/r/CT/q/b.dcm"]
    (by decide)).1

/-- C2, counterexample: the CT file has the lower (better) folder-priority
rank but the strictly smaller score, because its size term is negative
and unbounded: a 5 MB CT file scores below a 50 kB CBCT file.  The claim
"the file with the lower folderPriority rank always receives the higher
score" is therefore false on the code. -/
theorem category_dominance_counterexample :
    (rankInfoOf fsCross "/r/CT/p/a.dcm").folder_priority
        < (rankInfoOf fsCross "/r/CBCT/p/b.dcm").folder_priority
    ∧ (rankInfoOf fsCross "/r/CT/p/a.dcm").score
        < (rankInfoOf fsCross "/r/CBCT/p/b.dcm").score := by decide

/-- C2, amended: the folder-category penalty dominates only conditionally.
If the lower-priority file's deficit in the remaining terms
(sizeTerm − 1000·suffixCount + resolutionTerm) is less than 10000 times
the priority gap, it scores strictly higher; in general the byte-size term
can outweigh the category term. -/
theorem category_dominance_conditional (fs : FileSys) (p q : String)
    (_hp : (rankInfoOf fs p).folder_priority < (rankInfoOf fs q).folder_priority)
    (hgap : ((rankInfoOf fs q).size_score
          - ((rankInfoOf fs q).suffix_count : Int) * 1000
          + ((rankInfoOf fs q).resolution : Int))
        - ((rankInfoOf fs p).size_score
          - ((rankInfoOf fs p).suffix_count : Int) * 1000
          + ((rankInfoOf fs p).resolution : Int))
        < 10000 * (((rankInfoOf fs q).folder_priority : Int)
          - ((rankInfoOf fs p).folder_priority : Int))) :
    (rankInfoOf fs q).score < (rankInfoOf fs p).score := by
  rw [score_eq_fields fs p, score_eq_fields fs q]
  omega

theorem category_dominance_conditional_witness :
    (rankInfoOf fsSmall "/r/CBCT/p/b.dcm").score
      < (rankInfoOf fsSmall "/r/CT/p/a.dcm").score :=
  category_dominance_conditional fsSmall "/r/CT/p/a.dcm" "/r/CBCT/p/b.dcm"
    (by decide) (by decide)

/-- C3, counterexample: running the move branch on a group whose losing
file's quarantine destination already exists replaces the destination's
content with the loser's content and counts the move as processed; the
code calls `shutil.move` with no destination-exists check, so nothing is
skipped or flagged and the prior content is lost. -/
theorem move_overwrite_counterexample :
    ((moveBranch stMove "/r" "/o"
        (rank_duplicate_files fsMove
          [("k", ["/r/CT/p/a.dcm", "/r/CT/p/b.dcm"])])).1
      "/o/duplicates/CT/p/b.dcm" = some "B")
    ∧ stMove "/o/duplicates/CT/p/b.dcm" = some "OLD"
    ∧ ((moveBranch stMove "/r" "/o"
        (rank_duplicate_files fsMove
          [("k", ["/r/CT/p/a.dcm", "/r/CT/p/b.dcm"])])).1
      "/o/duplicates/CT/p/b.dcm" ≠ stMove "/o/duplicates/CT/p/b.dcm")
    ∧ (moveBranch stMove "/r" "/o"
        (rank_duplicate_files fsMove
          [("k", ["/r/CT/p/a.dcm", "/r/CT/p/b.dcm"])])).2 = 1 := by decide

/-- C3, amended: a losing file that exists is moved unconditionally: the
destination (quarantine root plus the path relative to root) receives the
source's content — replacing whatever was there — the source disappears,
and the move is counted as a success rather than skipped or flagged. -/
theorem move_overwrites_existing_destination (st : FSState)
    (rootDir outputDir p c : String) (h1 : st p = some c)
    (h2 : p ≠ destPath outputDir rootDir p) :
    (doMove st p (destPath outputDir rootDir p)).1 (destPath outputDir rootDir p) = some c
    ∧ (doMove st p (destPath outputDir rootDir p)).1 p = none
    ∧ (doMove st p (destPath outputDir rootDir p)).2 = true :=
  doMove_overwrites st p _ c h1 h2

theorem move_overwrites_existing_destination_witness :
    (doMove stMove "/r/CT/p/b.dcm" (destPath "/o" "/r" "/r/CT/p/b.dcm")).1
      (destPath "/o" "/r" "/r/CT/p/b.dcm") = some "B" :=
  (move_overwrites_existing_destination stMove "/r" "/o" "/r/CT/p/b.dcm" "B"
    (by decide) (by decide)).1

/-- C4, counterexample: an unrecognized mode on a nonempty input returns
the empty grouping and empty error list; `find_duplicate_files` raises
nothing, contradicting the claimed `PolicyMisconfiguration` failure. -/
theorem unknown_mode_counterexample :
    find_duplicate_files rdFail "bogus" ["/r/CT/p/a.dcm"] = ([], []) := by decide

/-- C4, amended: for every mode outside the recognized set,
`find_duplicate_files` silently returns an empty grouping and empty error
list (no error is raised; only the CLI argument parser restricts the
mode), and the downstream move branch then performs no filesystem
mutation because there are no groups. -/
theorem unknown_mode_silent_empty (rd : Reader) (mode : String) (files : List String)
    (h1 : mode ≠ "filename") (h2 : mode ≠ "pattern") (h3 : mode ≠ "metadata")
    (h4 : mode ≠ "content") (h5 : mode ≠ "advanced") :
    find_duplicate_files rd mode files = ([], [])
    ∧ ∀ (st : FSState) (fs : FileSys) (rootDir outputDir : String),
        moveBranch st rootDir outputDir
          (rank_duplicate_files fs (find_duplicate_files rd mode files).1) = (st, 0) := by
  have hmain : find_duplicate_files rd mode files = ([], []) := by
    unfold find_duplicate_files
    rw [if_neg h1, if_neg h2, if_neg h3, if_neg h4, if_neg h5]
    rfl
  refine ⟨hmain, ?_⟩
  intro st fs rootDir outputDir
  rw [hmain]
  rfl

theorem unknown_mode_silent_empty_witness :
    find_duplicate_files rdFail "bogus" ["/r/CT/p/a.dcm", "/r/CT/p/b.dcm"] = ([], []) :=
  (unknown_mode_silent_empty rdFail "bogus" ["/r/CT/p/a.dcm", "/r/CT/p/b.dcm"]
    (by decide) (by decide) (by decide) (by decide) (by decide)).1

/-- C5, counterexample: a file whose folder matches none of the known
category markers (category OTHER) keeps the default `size_score = 0`
rather than `+byteSize`: here a 500-byte OTHER file has size term 0. -/
theorem size_term_other_counterexample :
    (rankInfoOf fsOther "/r/X/p/a.dcm").is_ct_folder = false
    ∧ (rankInfoOf fsOther "/r/X/p/a.dcm").size = 500
    ∧ (rankInfoOf fsOther "/r/X/p/a.dcm").size_score = 0
    ∧ (rankInfoOf fsOther "/r/X/p/a.dcm").size_score
        ≠ ((rankInfoOf fsOther "/r/X/p/a.dcm").size : Int) := by decide

/-- C5, amended: the size term is `-byteSize` for CT-category files,
`+byteSize` for the RI/RS/RT/RD/RE/CBCT categories, and 0 (not
`+byteSize`) for files matching no category marker. -/
theorem size_term_by_category (fs : FileSys) (p : String) :
    (hasMarker p "/CT/" = true → (rankInfoOf fs p).size_score = -(fs.getsize p : Int))
    ∧ (hasMarker p "/CT/" = false →
        (hasMarker p "/RI/" || hasMarker p "/RS/" || hasMarker p "/RT/"
          || hasMarker p "/RD/" || hasMarker p "/RE/" || hasMarker p "/CBCT/") = true →
        (rankInfoOf fs p).size_score = (fs.getsize p : Int))
    ∧ ((hasMarker p "/CT/" || hasMarker p "/RI/" || hasMarker p "/RS/"
        || hasMarker p "/RT/" || hasMarker p "/RD/" || hasMarker p "/RE/"
        || hasMarker p "/CBCT/") = false →
        (rankInfoOf fs p).size_score = 0) := by
  refine ⟨?_, ?_, ?_⟩
  · intro h
    simp [rankInfoOf, h]
  · intro h hOr
    by_cases hRI : hasMarker p "/RI/"
    · simp [rankInfoOf, h, hRI]
    · by_cases hRS : hasMarker p "/RS/"
      · simp [rankInfoOf, h, hRI, hRS]
      · by_cases hRT : hasMarker p "/RT/"
        · simp [rankInfoOf, h, hRI, hRS, hRT]
        · by_cases hRD : hasMarker p "/RD/"
          · simp [rankInfoOf, h, hRI, hRS, hRT, hRD]
          · by_cases hRE : hasMarker p "/RE/"
            · simp [rankInfoOf, h, hRI, hRS, hRT, hRD, hRE]
            · by_cases hCB : hasMarker p "/CBCT/"
              · simp [rankInfoOf, h, hRI, hRS, hRT, hRD, hRE, hCB]
              · simp [hRI, hRS, hRT, hRD, hRE, hCB] at hOr
  · intro h
    simp only [Bool.or_eq_false_iff] at h
    obtain ⟨⟨⟨⟨⟨⟨h1, h2⟩, h3⟩, h4⟩, h5⟩, h6⟩, h7⟩ := h
    simp [rankInfoOf, h1, h2, h3, h4, h5, h6, h7]

theorem size_term_by_category_witness :
    (rankInfoOf fsOther "/r/X/p/a.dcm").size_score = 0 :=
  (size_term_by_category fsOther "/r/X/p/a.dcm").2.2 (by decide)

/-- C6: the CT scoring scenario of §8 — three CT files of 120000, 100000
and 200000 bytes with 0, 1 and 2 numeric suffixes score −130000, −111000
and −212000, and the 100000-byte single-suffix file is selected as the
keep file (head of the ranked list, marked `Is Best Match`). -/
theorem ct_scoring_scenario :
    (rankInfoOf fsScen "/r/CT/p/a.dcm").is_ct_folder = true
    ∧ (rankInfoOf fsScen "/r/CT/p/b.1.dcm").is_ct_folder = true
    ∧ (rankInfoOf fsScen "/r/CT/p/c.1.2.dcm").is_ct_folder = true
    ∧ (rankInfoOf fsScen "/r/CT/p/a.dcm").size = 120000
    ∧ (rankInfoOf fsScen "/r/CT/p/b.1.dcm").size = 100000
    ∧ (rankInfoOf fsScen "/r/CT/p/c.1.2.dcm").size = 200000
    ∧ (rankInfoOf fsScen "/r/CT/p/a.dcm").suffix_count = 0
    ∧ (rankInfoOf fsScen "/r/CT/p/b.1.dcm").suffix_count = 1
    ∧ (rankInfoOf fsScen "/r/CT/p/c.1.2.dcm").suffix_count = 2
    ∧ (rankInfoOf fsScen "/r/CT/p/a.dcm").score = -130000
    ∧ (rankInfoOf fsScen "/r/CT/p/b.1.dcm").score = -111000
    ∧ (rankInfoOf fsScen "/r/CT/p/c.1.2.dcm").score = -212000
    ∧ ((sortByScoreDesc (["/r/CT/p/a.dcm", "/r/CT/p/b.1.dcm", "/r/CT/p/c.1.2.dcm"].map
          (rankInfoOf fsScen))).head?.map (fun r => r.path) = some "/r/CT/p/b.1.dcm")
    ∧ ((reportRowsOfGroup "report" "k"
          (sortByScoreDesc (["/r/CT/p/a.dcm", "/r/CT/p/b.1.dcm", "/r/CT/p/c.1.2.dcm"].map
            (rankInfoOf fsScen)))).head?.map (fun r => (r.path, r.isKeep))
        = some ("/r/CT/p/b.1.dcm", true)) := by decide

/-- C7, counterexample: on `CT.123.Foo.dcm` the claimed chain (Image/Field
token, else text before the first `.<digits>.` run, else the Pattern
algorithm) yields `CT`, but the code's second anchored regex
`^([A-Z]+\\.\\d+\\.[^.]+)` accepts ANY non-dot third token — not only
`Field <n>` — and yields `CT.123.Foo`. -/
theorem series_key_chain_counterexample :
    extract_series_info "CT.123.Foo.dcm" = "CT.123.Foo"
    ∧ claimSeriesKeyC7 "CT.123.Foo.dcm" = "CT"
    ∧ extract_series_info "CT.123.Foo.dcm" ≠ claimSeriesKeyC7 "CT.123.Foo.dcm" := by
  decide

/-- C7, amended: the Series-pattern key follows this fallback chain, each
later step tried only when the earlier fails: (1) the anchored prefix
`[A-Z]+.<digits>.Image <digits>`; (2) the anchored prefix
`[A-Z]+.<digits>.<run of non-dot characters>` (any third token, not only
`Field <n>`); (3) the text before the first (least-index) `.<digits>.`
run; (4) the filename with its extension removed (without stripping
further trailing suffix tokens). -/
theorem series_key_chain (f : String) :
    (∀ n, matchImageTok f.toList = some n →
        extract_series_info f = String.mk (f.toList.take n))
    ∧ (matchImageTok f.toList = none → ∀ n, matchGeneralTok f.toList = some n →
        extract_series_info f = String.mk (f.toList.take n))
    ∧ (matchImageTok f.toList = none → matchGeneralTok f.toList = none →
        ∀ i, splitIdx f.toList = some i →
          extract_series_info f = String.mk (f.toList.take i)
          ∧ dotRunAt (f.toList.drop i) = true
          ∧ ∀ j, j < i → dotRunAt (f.toList.drop j) = false)
    ∧ (matchImageTok f.toList = none → matchGeneralTok f.toList = none →
        splitIdx f.toList = none →
          extract_series_info f = String.mk (splitextList f.toList).1
          ∧ ∀ j, dotRunAt (f.toList.drop j) = false) := by
  refine ⟨?_, ?_, ?_, ?_⟩
  · intro n h
    unfold extract_series_info
    rw [h]
  · intro h0 n h
    unfold extract_series_info
    rw [h0, h]
  · intro h0 h1 i h
    unfold extract_series_info
    rw [h0, h1, h]
    exact ⟨rfl, (splitIdx_some_spec f.toList i h).1, (splitIdx_some_spec f.toList i h).2⟩
  · intro h0 h1 h2
    unfold extract_series_info
    rw [h0, h1, h2]
    exact ⟨rfl, splitIdx_none_spec f.toList h2⟩

theorem series_key_chain_witness :
    extract_series_info "abc.12.x.dcm" = String.mk ("abc.12.x.dcm".toList.take 3)
    ∧ dotRunAt ("abc.12.x.dcm".toList.drop 3) = true :=
  ⟨((series_key_chain "abc.12.x.dcm").2.2.1 (by decide) (by decide) 3 (by decide)).1,
   ((series_key_chain "abc.12.x.dcm").2.2.1 (by decide) (by decide) 3 (by decide)).2.1⟩

/-- C8: under metadata grouping, every readable file is keyed by its SOP
instance UID, else by `seriesUID_instanceNumber` when both are present,
else by the suffix-stripped base name (`metadataKey` encodes exactly that
chain); every file whose read raises lands on the error list, appears in
no group (before or after the size filter), and the remaining files are
still grouped (the first conjunct holds for every readable file of the
list, wherever the failing file sits). -/
theorem metadata_keying_and_error_isolation (rd : Reader) (files : List String)
    (p : String) (hmem : p ∈ files) :
    (∀ t, rd.readTags p = .ok t →
        inGroups (metadataGroups rd files).1 (metadataKey t (basename p)) p)
    ∧ (∀ m, rd.readTags p = .error m →
        (p, m) ∈ (metadataGroups rd files).2
        ∧ (∀ kv, kv ∈ (metadataGroups rd files).1 → p ∉ kv.2)
        ∧ (∀ kv, kv ∈ (find_duplicate_files rd "metadata" files).1 → p ∉ kv.2)
        ∧ (find_duplicate_files rd "metadata" files).2 = (metadataGroups rd files).2) := by
  refine ⟨?_, ?_⟩
  · intro t hok
    exact metaFold_ok_mem rd files ([], []) p t hmem hok
  · intro m herr
    have hAllOk : groupsAllOk rd (metadataGroups rd files).1 :=
      metaFold_groupsAllOk rd files ([], []) (by intro kv hkv; simp at hkv)
    have hnot : ∀ kv, kv ∈ (metadataGroups rd files).1 → p ∉ kv.2 := by
      intro kv hkv hp2
      obtain ⟨t, ht⟩ := hAllOk kv hkv p hp2
      rw [herr] at ht
      simp at ht
    have hfilter : (find_duplicate_files rd "metadata" files).1
        = (metadataGroups rd files).1.filter (fun kv => 1 < kv.2.length) := rfl
    refine ⟨metaFold_err_mem rd files ([], []) p m hmem herr, hnot, ?_, rfl⟩
    intro kv hkv
    apply hnot
    rw [hfilter] at hkv
    exact (List.mem_filter.mp hkv).1

theorem metadata_keying_and_error_isolation_witness :
    inGroups
      (metadataGroups rdMeta ["/r/CT/p/a.dcm", "/r/CT/p/b.dcm", "/r/CT/p/c.dcm"]).1
      (metadataKey ⟨some "uidA", some "ser1", some 3⟩ (basename "/r/CT/p/a.dcm"))
      "/r/CT/p/a.dcm"
    ∧ ("/r/CT/p/c.dcm", "bad header")
        ∈ (metadataGroups rdMeta ["/r/CT/p/a.dcm", "/r/CT/p/b.dcm", "/r/CT/p/c.dcm"]).2 :=
  ⟨(metadata_keying_and_error_isolation rdMeta
      ["/r/CT/p/a.dcm", "/r/CT/p/b.dcm", "/r/CT/p/c.dcm"] "/r/CT/p/a.dcm"
      (by decide)).1 ⟨some "uidA", some "ser1", some 3⟩ rfl,
   ((metadata_keying_and_error_isolation rdMeta
      ["/r/CT/p/a.dcm", "/r/CT/p/b.dcm", "/r/CT/p/c.dcm"] "/r/CT/p/c.dcm"
      (by decide)).2 "bad header" rfl).1⟩

/-- C9: when two or more members of a group attain the maximal score, the
head of the ranked list is the first such member in the group's
enumeration order, and the sort is stable: for every score value, the
members carrying it appear in the ranked list in their input order. -/
theorem tie_break_stable_first (fs : FileSys) (g : List String)
    (_h : 2 ≤ (g.map (rankInfoOf fs)).countP
        (fun r => (g.map (rankInfoOf fs)).all (fun z => z.score ≤ r.score))) :
    (sortByScoreDesc (g.map (rankInfoOf fs))).head?
      = (g.map (rankInfoOf fs)).find?
          (fun r => (g.map (rankInfoOf fs)).all (fun z => z.score ≤ r.score))
    ∧ ∀ n : Int,
        (sortByScoreDesc (g.map (rankInfoOf fs))).filter (fun r => r.score == n)
        = (g.map (rankInfoOf fs)).filter (fun r => r.score == n) :=
  ⟨head?_sortByScoreDesc _, fun n => filter_sortByScoreDesc _ n⟩

theorem tie_break_stable_first_witness :
    (sortByScoreDesc (["/r/CT/q/a.dcm", "/r/CT/q/b.dcm"].map (rankInfoOf fsFlat))).head?
      = (["/r/CT/q/a.dcm", "/r/CT/q/b.dcm"].map (rankInfoOf fsFlat)).find?
          (fun r => (["/r/CT/q/a.dcm", "/r/CT/q/b.dcm"].map (rankInfoOf fsFlat)).all
            (fun z => z.score ≤ r.score)) :=
  (tie_break_stable_first fsFlat ["/r/CT/q/a.dcm", "/r/CT/q/b.dcm"] (by decide)).1

/-- C10: under the advanced mode, a file whose basename contains no `.`
separator is neither skipped nor an error: it lands in the patient
partition keyed `unknown` and is then series-grouped inside it, under the
combined key `unknown_<seriesKey>`. -/
theorem advanced_mode_total (files : List String) (p : String)
    (hmem : p ∈ files) (hnd : (basenameL p.toList).all (fun c => c ≠ '.') = true) :
    inGroups (patientGroupsOf files) "unknown" p
    ∧ inGroups (advancedGroups files)
        ("unknown" ++ "_" ++ extract_series_info (basename p)) p := by
  have hpid : patientIdOf (basenameL p.toList) = "unknown" := by
    unfold patientIdOf
    have hsplit : splitOnDot (basenameL p.toList) = [basenameL p.toList] := by
      apply splitOnDot_no_dot
      intro c hc
      have h2 := List.all_eq_true.mp hnd c hc
      simpa using h2
    rw [hsplit]
    simp
  have h1 : inGroups (patientGroupsOf files) "unknown" p := by
    have h2 := foldl_addToGroup_mem (fun q => patientIdOf (basenameL q.toList)) files [] p hmem
    have h3 : inGroups (patientGroupsOf files) (patientIdOf (basenameL p.toList)) p := h2
    rw [hpid] at h3
    exact h3
  refine ⟨h1, ?_⟩
  obtain ⟨grp, hlk, hpg⟩ := h1
  have hmem2 : ("unknown", grp) ∈ patientGroupsOf files := lookupG_mem _ _ _ hlk
  have h3 := advancedFold_mem (patientGroupsOf files) [] ("unknown", grp) p hmem2 hpg
  exact h3

theorem advanced_mode_total_witness :
    inGroups (advancedGroups ["/r/CT/p/nodots"])
      ("unknown" ++ "_" ++ extract_series_info (basename "/r/CT/p/nodots"))
      "/r/CT/p/nodots" :=
  (advanced_mode_total ["/r/CT/p/nodots"] "/r/CT/p/nodots" (by decide) (by decide)).2

end DupDetect
